import Mathlib

/-!
Verification of the judge runner (`judge.go`) of the library-checker judge.

The Go source is shallowly embedded below.  Pure data flow (the bounded
stderr capper `outputStripper`, result aggregation `AggregateResults`, the
verdict decision logic of `Judge.TestCase`, the post-run logic of `SafeRun`,
and the submission-lock step `TryLockSubmission`) is translated function by
function.  External effects (process execution, the result temp file, the
database row) are made explicit parameters or explicit state:

* a run of the external `executor` binary is described by the executor's
  exit code, the parse outcome of its result file (`Option Result`), and the
  bytes captured from stderr;
* the submission-lock table row for one id is an `Option SubmissionLock`,
  and the serialised database transactions become a fold over a list of
  `(timestamp, holder-name)` calls.

Go `int` and the float64 `time` field are modelled as `Int` (the judge only
copies and compares these values, so no float rounding is involved in any
statement proved here); byte slices are `List UInt8`.
-/

/-! ## outputStripper (judge.go lines 22-51) -/

/-- `outputStripper` from judge.go: a bounded stderr sink with capacity `N`
(a Go `int`, modelled as `Int`), the retained bytes `data`, and the latched
`overflow` flag. -/
structure outputStripper where
  N : Int
  data : List UInt8
  overflow : Bool
deriving Repr, DecidableEq

/-- A fresh `outputStripper{N: n}` as built in `SafeRun` (zero-valued
`data` and `overflow`). -/
def outputStripper.init (n : Int) : outputStripper := ⟨n, [], false⟩

/-- `outputStripper.Write` (judge.go lines 28-42).  Returns the reported
byte count, the error flag (`N <= 20` refuses the write), and the updated
stripper.  Go's `b[:add]` is `List.take add.toNat`; for every state reached
from `outputStripper.init` with `N > 20` the slack `cap` is nonnegative, as
proved below. -/
def outputStripper.write (s : outputStripper) (b : List UInt8) :
    Int × Bool × outputStripper :=
  if s.N ≤ 20 then (-1, true, s)
  else
    let blen : Int := b.length
    let cap : Int := s.N - 20 - s.data.length
    let add : Int := if cap < blen then cap else blen
    let ov : Bool := if cap < blen then true else s.overflow
    (blen, false, ⟨s.N, s.data ++ b.take add.toNat, ov⟩)

/-- The 13 bytes of the literal `" ... stripped"` appended on overflow
(judge.go line 48); these are its UTF-8 bytes. -/
def strippedSentinel : List UInt8 :=
  [32, 46, 46, 46, 32, 115, 116, 114, 105, 112, 112, 101, 100]

/-- `outputStripper.Bytes` (judge.go lines 44-51): the retained data,
followed by the sentinel when `overflow` is latched. -/
def outputStripper.bytes (s : outputStripper) : List UInt8 :=
  s.data ++ (if s.overflow then strippedSentinel else [])

/-- A whole sequence of writes against a fresh capper of capacity `n`. -/
def runWrites (n : Int) (ws : List (List UInt8)) : outputStripper :=
  ws.foldl (fun s b => (s.write b).2.2) (outputStripper.init n)

/-- Total number of input bytes across a sequence of writes. -/
def totalLen (ws : List (List UInt8)) : Nat :=
  (ws.map List.length).sum

/-! ## Result and SafeRun (judge.go lines 53-103) -/

/-- `Result` from judge.go: the record decoded from the executor's result
file, plus the captured stderr. -/
structure Result where
  returnCode : Int
  time : Int
  memory : Int
  tle : Bool
  stderr : List UInt8
deriving Repr, DecidableEq

/-- The Go zero value `Result{}`. -/
def zeroResult : Result := ⟨0, 0, 0, false, []⟩

/-- Post-run decision logic of `SafeRun` (judge.go lines 87-102), after the
executor process has been spawned and waited for.  `exitCode` is
`cmd.ProcessState.ExitCode()`; `cmd.Run()` reports an error exactly when the
exit code is nonzero, so the guard `err != nil && exitCode != 124` is
`exitCode ≠ 0 ∧ exitCode ≠ 124`.  `raw` is the parse of the result temp
file (`none` when reading or unmarshalling fails, which makes the call fail
with the zero `Result`), and `captured` is `os.Bytes()` of the stderr
capper.  The returned `Bool` is `true` exactly when the Go function returns
a non-nil error. -/
def SafeRun (exitCode : Int) (raw : Option Result) (captured : List UInt8) :
    Result × Bool :=
  if exitCode ≠ 0 ∧ exitCode ≠ 124 then
    ({ returnCode := -1, time := -1, memory := -1, tle := false, stderr := [] }, true)
  else
    match raw with
    | none => (zeroResult, true)
    | some r => ({ r with stderr := captured }, false)

/-! ## CaseResult and AggregateResults (judge.go lines 219-242) -/

/-- `CaseResult` from judge.go. -/
structure CaseResult where
  caseName : String
  status : String
  result : Result
deriving Repr, DecidableEq

/-- The Go zero value `CaseResult{}`. -/
def zeroCaseResult : CaseResult := ⟨"", "", zeroResult⟩

/-- The initial accumulator of `AggregateResults` (judge.go lines 226-229):
status `"AC"` and sentinel `Result{ReturnCode: -1, Time: -1, Memory: -1}`. -/
def aggInit : CaseResult := ⟨"", "AC", ⟨-1, -1, -1, false, []⟩⟩

/-- One iteration of the loop body of `AggregateResults`
(judge.go lines 230-240). -/
def aggStep (ans res : CaseResult) : CaseResult :=
  let a1 := if res.status ≠ "AC" then { ans with status := res.status } else ans
  let a2 := if a1.result.time < res.result.time then
    { a1 with result := { a1.result with time := res.result.time } } else a1
  if a2.result.memory < res.result.memory then
    { a2 with result := { a2.result with memory := res.result.memory } } else a2

/-- `AggregateResults` (judge.go lines 225-242). -/
def AggregateResults (results : List CaseResult) : CaseResult :=
  results.foldl aggStep aggInit

/-! ## Judge.TestCase (judge.go lines 244-323)

The two `SafeRun` invocations inside `TestCase` are described by
`RunOutcome`: the `Result` and error flag returned by `SafeRun`, plus the
executor's exit code `cmd.ProcessState.ExitCode()`, which `TestCase`
inspects separately. -/

/-- Observable outcome of one `SafeRun` call as seen by `TestCase`. -/
structure RunOutcome where
  res : Result
  err : Bool
  exitCode : Int
deriving Repr, DecidableEq

/-- The `RunOutcome` produced by an actual `SafeRun` call with executor
exit code `exitCode`, result-file parse `raw` and captured stderr
`captured`. -/
def RunOutcome.ofRun (exitCode : Int) (raw : Option Result)
    (captured : List UInt8) : RunOutcome :=
  ⟨(SafeRun exitCode raw captured).1, (SafeRun exitCode raw captured).2, exitCode⟩

/-- Phase 1 of `TestCase` (judge.go lines 277-294): interpretation of the
submission's own run.  `some (c, e)` is an early return of `(c, e)` where
`e` records whether the accompanying Go error is non-nil; `none` means
control continues to the checker phase. -/
def testCasePhase1 (sub : RunOutcome) : Option (CaseResult × Bool) :=
  if sub.err then some (zeroCaseResult, true)
  else if sub.res.tle then some (⟨"", "TLE", sub.res⟩, false)
  else if sub.exitCode ≠ 0 then some (⟨"", "Broken", sub.res⟩, true)
  else if sub.res.returnCode ≠ 0 then some (⟨"", "RE", sub.res⟩, false)
  else none

/-- Phase 2 of `TestCase` (judge.go lines 297-322): interpretation of the
checker run.  `subRes` is the submission's own `Result`, which is the one
embedded in every verdict returned here. -/
def testCasePhase2 (subRes : Result) (chk : RunOutcome) : CaseResult × Bool :=
  if chk.err then (zeroCaseResult, true)
  else if chk.res.tle then (⟨"", "ITLE", subRes⟩, false)
  else if chk.exitCode ≠ 0 then (⟨"", "Broken", subRes⟩, true)
  else if chk.res.returnCode = 1 then (⟨"", "WA", subRes⟩, false)
  else if chk.res.returnCode = 2 then (⟨"", "PE", subRes⟩, false)
  else if chk.res.returnCode = 3 then (⟨"", "Fail", subRes⟩, false)
  else if chk.res.returnCode ≠ 0 then (⟨"", "Unknown", subRes⟩, false)
  else (⟨"", "AC", subRes⟩, false)

/-- `Judge.TestCase` (judge.go lines 244-323), given the outcomes of its
two `SafeRun` calls.  The file-preparation steps preceding the runs
(creating `input.in`, `expect.out`, `actual.out`) only fail with I/O
errors before any run happens and are outside this decision logic. -/
def TestCase (sub chk : RunOutcome) : CaseResult × Bool :=
  match testCasePhase1 sub with
  | some out => out
  | none => testCasePhase2 sub.res chk

/-! ## Submission lock (judge.go lines 506-546) -/

/-- `LOCK_TIME = time.Minute`, in seconds. -/
def LOCK_TIME : Nat := 60

/-- The `SubmissionLock` row for a fixed submission id: holder `name` and
`ping` timestamp (seconds; the zero value `time.Time{}` is `0`). -/
structure SubmissionLock where
  name : String
  ping : Nat
deriving Repr, DecidableEq

/-- `TryLockSubmission` (judge.go lines 515-546) acting on the (possibly
absent) lock row of one submission id at time `now`.  `FirstOrCreate` with
`Attrs` yields the existing row, or seeds a fresh one with the caller's
`name` and zero `Ping`; the transaction serialises, so one call is one step.
Returns the `succeeded` flag and the row state after the transaction. -/
def TryLockSubmission (st : Option SubmissionLock) (now : Nat) (name : String) :
    Bool × Option SubmissionLock :=
  let lock := st.getD ⟨name, 0⟩
  if lock.name ≠ name ∧ now < lock.ping + LOCK_TIME then (false, some lock)
  else (true, some ⟨name, now⟩)

/-- A sequence of `TryLockSubmission` calls `(now, name)` against one
submission id, returning the list of `succeeded` flags and the final row
state. -/
def runLocks (st : Option SubmissionLock) :
    List (Nat × String) → List Bool × Option SubmissionLock
  | [] => ([], st)
  | c :: rest =>
    let step := TryLockSubmission st c.1 c.2
    let tail := runLocks step.2 rest
    (step.1 :: tail.1, tail.2)

/-! ## Helper lemmas -/

lemma RunOutcome.ofRun_exitCode (e : Int) (raw : Option Result) (c : List UInt8) :
    (RunOutcome.ofRun e raw c).exitCode = e := rfl

/-! ## Claims about SafeRun and TestCase -/

/-- C5: if the executor exits nonzero with a code other than 124, `SafeRun`
returns `Result{ReturnCode: -1, Time: -1, Memory: -1}` together with an
error; an executor exit of 124 by itself does not make `SafeRun` fail — the
result file is still read and returned (with the captured stderr
attached). -/
theorem SafeRun_error_model (exitCode : Int) (raw : Option Result) (captured : List UInt8) :
    (exitCode ≠ 0 → exitCode ≠ 124 →
      SafeRun exitCode raw captured =
        ({ returnCode := -1, time := -1, memory := -1, tle := false, stderr := [] }, true))
    ∧ (∀ r, raw = some r →
      SafeRun 124 raw captured = ({ r with stderr := captured }, false)) := by
  constructor
  · intro h0 h124
    simp [SafeRun, h0, h124]
  · intro r hr
    subst hr
    simp [SafeRun]

/-- Witness for C5 at executor exit 2 (failure) and 124 (normal). -/
theorem SafeRun_error_model_witness :
    SafeRun 2 none [] =
      ({ returnCode := -1, time := -1, memory := -1, tle := false, stderr := [] }, true)
    ∧ SafeRun 124 (some zeroResult) [] = ({ zeroResult with stderr := [] }, false) :=
  ⟨(SafeRun_error_model 2 none []).1 (by decide) (by decide),
   (SafeRun_error_model 124 (some zeroResult) []).2 zeroResult rfl⟩

/-- C2, counterexample: when `SafeRun` for the submission's run returns an
error (executor exit 1, hence not 124), `TestCase` returns the zero
`CaseResult`, whose `Status` is the empty string — not `Broken` as the
claim states. -/
theorem TestCase_subrun_error_counterexample :
    (RunOutcome.ofRun 1 none []).err = true
    ∧ (TestCase (RunOutcome.ofRun 1 none [])
        (RunOutcome.ofRun 0 (some zeroResult) [])).1.status ≠ "Broken"
    ∧ (TestCase (RunOutcome.ofRun 1 none [])
        (RunOutcome.ofRun 0 (some zeroResult) [])).1.status = "" := by
  decide

/-- C2, amended: when `SafeRun` for the submission's own run returns an
error, `TestCase` returns the zero `CaseResult` (whose `Status` is the
empty string, not `Broken`) together with the error
(judge.go lines 279-281). -/
theorem TestCase_subrun_error_returns_zero (sub chk : RunOutcome) (h : sub.err = true) :
    TestCase sub chk = (zeroCaseResult, true) := by
  simp [TestCase, testCasePhase1, h]

/-- Witness for the amended C2, at an erroring submission run. -/
theorem TestCase_subrun_error_returns_zero_witness :
    TestCase (RunOutcome.ofRun 1 none [])
      (RunOutcome.ofRun 0 (some zeroResult) []) = (zeroCaseResult, true) :=
  TestCase_subrun_error_returns_zero _ _ (by decide)

/-- C6, counterexample: a submission run whose `SafeRun` call succeeds with
executor exit code 124 and `tle = false` makes `TestCase` return `Broken`,
contradicting the claim that exit 124 with `tle` false does not yield
`Broken`. -/
theorem TestCase_broken_on_124_counterexample :
    (RunOutcome.ofRun 124 (some ⟨0, 5, 7, false, []⟩) []).err = false
    ∧ (RunOutcome.ofRun 124 (some ⟨0, 5, 7, false, []⟩) []).res.tle = false
    ∧ (RunOutcome.ofRun 124 (some ⟨0, 5, 7, false, []⟩) []).exitCode = 124
    ∧ (TestCase (RunOutcome.ofRun 124 (some ⟨0, 5, 7, false, []⟩) [])
        (RunOutcome.ofRun 0 (some zeroResult) [])).1.status = "Broken" := by
  decide

/-- C6, amended: when the submission's `SafeRun` call succeeds, the
executor's exit code is necessarily 0 or 124 (nonzero non-124 exits already
fail inside `SafeRun`); with `tle = false`, phase 1 of `TestCase` returns
`Broken` (with an error) exactly when that exit code is nonzero — that is,
exactly when it is 124. -/
theorem testCasePhase1_broken_iff (exitCode : Int) (raw : Option Result) (captured : List UInt8)
    (hs : (RunOutcome.ofRun exitCode raw captured).err = false)
    (ht : (RunOutcome.ofRun exitCode raw captured).res.tle = false) :
    (exitCode = 0 ∨ exitCode = 124)
    ∧ (testCasePhase1 (RunOutcome.ofRun exitCode raw captured) =
        some (⟨"", "Broken", (RunOutcome.ofRun exitCode raw captured).res⟩, true)
      ↔ exitCode ≠ 0) := by
  have hexit : exitCode = 0 ∨ exitCode = 124 := by
    by_contra hne
    push_neg at hne
    simp [RunOutcome.ofRun, SafeRun, hne.1, hne.2] at hs
  refine ⟨hexit, ?_⟩
  rcases hexit with h0 | h124
  · subst h0
    constructor
    · intro hphase
      by_cases hrc : (RunOutcome.ofRun 0 raw captured).res.returnCode = 0
      · simp [testCasePhase1, hs, ht, RunOutcome.ofRun_exitCode, hrc] at hphase
      · simp [testCasePhase1, hs, ht, RunOutcome.ofRun_exitCode, hrc] at hphase
    · intro hne
      exact absurd rfl hne
  · subst h124
    constructor
    · intro _
      decide
    · intro _
      simp [testCasePhase1, hs, ht, RunOutcome.ofRun_exitCode]

/-- Witness for the amended C6 at executor exit 124, `tle = false`. -/
theorem testCasePhase1_broken_iff_witness :
    ((124 : Int) = 0 ∨ (124 : Int) = 124)
    ∧ (testCasePhase1 (RunOutcome.ofRun 124 (some ⟨0, 5, 7, false, []⟩) []) =
        some (⟨"", "Broken", (RunOutcome.ofRun 124 (some ⟨0, 5, 7, false, []⟩) []).res⟩, true)
      ↔ (124 : Int) ≠ 0) :=
  testCasePhase1_broken_iff 124 (some ⟨0, 5, 7, false, []⟩) [] (by decide) (by decide)

set_option maxHeartbeats 1000000 in
/-- C9: whenever `TestCase` returns a `CaseResult` whose status is
`Broken`, the accompanying Go error is non-nil (both `Broken` returns,
judge.go lines 288-290 and 307-309, carry `errors.New`). -/
theorem TestCase_broken_implies_error (sub chk : RunOutcome)
    (h : (TestCase sub chk).1.status = "Broken") : (TestCase sub chk).2 = true := by
  unfold TestCase testCasePhase1 testCasePhase2 at h ⊢
  split_ifs at h ⊢ <;> simp_all [zeroCaseResult]

/-- Witness for C9 at a `Broken`-producing run (executor exit 124 with
`tle = false`). -/
theorem TestCase_broken_implies_error_witness :
    (TestCase (RunOutcome.ofRun 124 (some ⟨0, 1, 1, false, []⟩) [])
      (RunOutcome.ofRun 0 (some zeroResult) [])).2 = true :=
  TestCase_broken_implies_error _ _ (by decide)

/-- C1: when the submission run completes (no `SafeRun` error, `tle`
false, executor exit 0, submission return code 0) and the checker's
`SafeRun` call succeeds, the verdict is `ITLE` if the checker run reports
`tle`; otherwise, with checker executor exit 0, the verdict is determined
by the checker's return code: 0 is `AC`, 1 is `WA`, 2 is `PE`, 3 is
`Fail`, and any other value is `Unknown`. -/
theorem TestCase_checker_verdict_table (sub chk : RunOutcome)
    (h1 : sub.err = false) (h2 : sub.res.tle = false)
    (h3 : sub.exitCode = 0) (h4 : sub.res.returnCode = 0)
    (h5 : chk.err = false) :
    (chk.res.tle = true → (TestCase sub chk).1.status = "ITLE")
    ∧ (chk.res.tle = false → chk.exitCode = 0 →
        ((chk.res.returnCode = 0 → (TestCase sub chk).1.status = "AC")
        ∧ (chk.res.returnCode = 1 → (TestCase sub chk).1.status = "WA")
        ∧ (chk.res.returnCode = 2 → (TestCase sub chk).1.status = "PE")
        ∧ (chk.res.returnCode = 3 → (TestCase sub chk).1.status = "Fail")
        ∧ (chk.res.returnCode ≠ 0 → chk.res.returnCode ≠ 1 → chk.res.returnCode ≠ 2 →
            chk.res.returnCode ≠ 3 → (TestCase sub chk).1.status = "Unknown"))) := by
  have hbase : TestCase sub chk = testCasePhase2 sub.res chk := by
    simp [TestCase, testCasePhase1, h1, h2, h3, h4]
  rw [hbase]
  constructor
  · intro ht
    simp [testCasePhase2, h5, ht]
  · intro ht hex
    refine ⟨?_, ?_, ?_, ?_, ?_⟩
    · intro hrc
      simp [testCasePhase2, h5, ht, hex, hrc]
    · intro hrc
      simp [testCasePhase2, h5, ht, hex, hrc]
    · intro hrc
      simp [testCasePhase2, h5, ht, hex, hrc]
    · intro hrc
      simp [testCasePhase2, h5, ht, hex, hrc]
    · intro hr0 hr1 hr2 hr3
      simp [testCasePhase2, h5, ht, hex, hr0, hr1, hr2, hr3]

/-- Witness for C1: a completed submission run and a checker exiting with
return code 2 yield verdict `PE`. -/
theorem TestCase_checker_verdict_table_witness :
    (TestCase (RunOutcome.ofRun 0 (some ⟨0, 1, 2, false, []⟩) [])
      (RunOutcome.ofRun 0 (some ⟨2, 3, 4, false, []⟩) [])).1.status = "PE" :=
  (((TestCase_checker_verdict_table _ _ (by decide) (by decide) (by decide) (by decide)
      (by decide)).2 (by decide) (by decide)).2.2.1) (by decide)

/-! ## Claims about AggregateResults -/

lemma aggStep_eq (a c : CaseResult) :
    aggStep a c =
      ⟨a.caseName,
        if c.status ≠ "AC" then c.status else a.status,
        ⟨a.result.returnCode,
          max a.result.time c.result.time,
          max a.result.memory c.result.memory,
          a.result.tle, a.result.stderr⟩⟩ := by
  obtain ⟨an, as, ar, atm, amem, atle, asd⟩ := a
  obtain ⟨cn, cs, cr, ctm, cmem, ctle, csd⟩ := c
  unfold aggStep
  by_cases h1 : cs = "AC" <;> by_cases h2 : atm < ctm <;> by_cases h3 : amem < cmem <;>
    simp [h1, h2, h3] <;> omega

lemma aggStep_status (a c : CaseResult) :
    (aggStep a c).status = if c.status ≠ "AC" then c.status else a.status := by
  rw [aggStep_eq]

lemma aggStep_time (a c : CaseResult) :
    (aggStep a c).result.time = max a.result.time c.result.time := by
  rw [aggStep_eq]

lemma aggStep_memory (a c : CaseResult) :
    (aggStep a c).result.memory = max a.result.memory c.result.memory := by
  rw [aggStep_eq]

lemma foldl_aggStep_status_AC (l : List CaseResult) :
    ∀ a : CaseResult, (∀ d ∈ l, d.status = "AC") →
      (List.foldl aggStep a l).status = a.status := by
  induction l with
  | nil => intro a _; rfl
  | cons d rest ih =>
    intro a hl
    rw [List.foldl_cons, ih _ (fun x hx => hl x (List.mem_cons_of_mem _ hx)),
      aggStep_status]
    simp [hl d (List.mem_cons_self _ _)]

lemma foldl_aggStep_time (l : List CaseResult) :
    ∀ a : CaseResult,
      (List.foldl aggStep a l).result.time =
        List.foldl (fun m c => max m c.result.time) a.result.time l := by
  induction l with
  | nil => intro a; rfl
  | cons d rest ih =>
    intro a
    rw [List.foldl_cons, List.foldl_cons, ih, aggStep_time]

lemma foldl_aggStep_memory (l : List CaseResult) :
    ∀ a : CaseResult,
      (List.foldl aggStep a l).result.memory =
        List.foldl (fun m c => max m c.result.memory) a.result.memory l := by
  induction l with
  | nil => intro a; rfl
  | cons d rest ih =>
    intro a
    rw [List.foldl_cons, List.foldl_cons, ih, aggStep_memory]

lemma foldl_max_le_init (f : CaseResult → Int) (l : List CaseResult) :
    ∀ a : Int, a ≤ List.foldl (fun m c => max m (f c)) a l := by
  induction l with
  | nil => intro a; exact le_refl a
  | cons d rest ih =>
    intro a
    exact le_trans (le_max_left a (f d)) (ih (max a (f d)))

lemma mem_le_foldl_max (f : CaseResult → Int) (l : List CaseResult) :
    ∀ (a : Int) (c : CaseResult), c ∈ l →
      f c ≤ List.foldl (fun m x => max m (f x)) a l := by
  induction l with
  | nil => intro a c hc; cases hc
  | cons d rest ih =>
    intro a c hc
    rcases List.mem_cons.mp hc with h | h
    · subst h
      exact le_trans (le_max_right a (f c)) (foldl_max_le_init f rest _)
    · exact ih _ c h

/-- C8: if the input contains at least one case whose status is not `AC`
(written as `pre ++ c :: post` with `c` the last such case, i.e. every later
case is `AC`), `AggregateResults` returns the status of that last non-`AC`
case: the loop overwrites the status on every non-`AC` case, so the last
writer wins. -/
theorem AggregateResults_last_nonAC (pre : List CaseResult) (c : CaseResult)
    (post : List CaseResult) (hc : c.status ≠ "AC")
    (hpost : ∀ d ∈ post, d.status = "AC") :
    (AggregateResults (pre ++ c :: post)).status = c.status := by
  unfold AggregateResults
  rw [List.foldl_append, List.foldl_cons, foldl_aggStep_status_AC post _ hpost,
    aggStep_status]
  simp [hc]

/-- Witness for C8: a `WA` case followed by an `AC` case aggregates to
`WA`. -/
theorem AggregateResults_last_nonAC_witness :
    (AggregateResults
      ([⟨"a", "TLE", ⟨0, 1, 1, true, []⟩⟩] ++
        ⟨"b", "WA", ⟨0, 2, 2, false, []⟩⟩ ::
          [⟨"d", "AC", ⟨0, 3, 3, false, []⟩⟩])).status = "WA" :=
  AggregateResults_last_nonAC [⟨"a", "TLE", ⟨0, 1, 1, true, []⟩⟩]
    ⟨"b", "WA", ⟨0, 2, 2, false, []⟩⟩ [⟨"d", "AC", ⟨0, 3, 3, false, []⟩⟩]
    (by decide) (by decide)

/-- C7, counterexample: on the non-empty input
`[{Time: -2, Memory: -3}]` the aggregate time and memory are the sentinel
`-1`, while the maxima over the input are `-2` and `-3`: the aggregate is
strictly greater than the maximum, refuting the claimed equality for
non-empty inputs. -/
theorem AggregateResults_max_equality_counterexample :
    (AggregateResults [⟨"case1", "AC", ⟨0, -2, -3, false, []⟩⟩]).result.time = -1
    ∧ (AggregateResults [⟨"case1", "AC", ⟨0, -2, -3, false, []⟩⟩]).result.memory = -1
    ∧ (([⟨"case1", "AC", ⟨0, -2, -3, false, []⟩⟩] : List CaseResult).map
        (fun c => c.result.time)).max? = some (-2)
    ∧ (([⟨"case1", "AC", ⟨0, -2, -3, false, []⟩⟩] : List CaseResult).map
        (fun c => c.result.memory)).max? = some (-3)
    ∧ ((-1 : Int) ≠ -2 ∧ (-1 : Int) ≠ -3) := by
  decide

/-- C7, amended: the aggregate time is the maximum of the sentinel `-1` and
all case times (a left fold of `max` starting at `-1`), hence at least every
case's time, with equality to the input maximum whenever some case time is
`≥ -1`; likewise for memory; the empty input yields the sentinel `-1` for
both. -/
theorem AggregateResults_time_memory_max (cs : List CaseResult) :
    (AggregateResults cs).result.time =
      List.foldl (fun m c => max m c.result.time) (-1) cs
    ∧ (AggregateResults cs).result.memory =
      List.foldl (fun m c => max m c.result.memory) (-1) cs
    ∧ (∀ c ∈ cs, c.result.time ≤ (AggregateResults cs).result.time)
    ∧ (∀ c ∈ cs, c.result.memory ≤ (AggregateResults cs).result.memory)
    ∧ (AggregateResults []).result.time = -1
    ∧ (AggregateResults []).result.memory = -1 := by
  have ht : (AggregateResults cs).result.time =
      List.foldl (fun m c => max m c.result.time) (-1) cs := by
    unfold AggregateResults
    rw [foldl_aggStep_time]
    rfl
  have hm : (AggregateResults cs).result.memory =
      List.foldl (fun m c => max m c.result.memory) (-1) cs := by
    unfold AggregateResults
    rw [foldl_aggStep_memory]
    rfl
  refine ⟨ht, hm, ?_, ?_, rfl, rfl⟩
  · intro c hc
    rw [ht]
    exact mem_le_foldl_max (fun c => c.result.time) cs (-1) c hc
  · intro c hc
    rw [hm]
    exact mem_le_foldl_max (fun c => c.result.memory) cs (-1) c hc

/-- Witness for the amended C7 on a concrete two-case list. -/
theorem AggregateResults_time_memory_max_witness :
    (⟨"a", "AC", ⟨0, 3, 9, false, []⟩⟩ : CaseResult).result.time ≤
      (AggregateResults [⟨"a", "AC", ⟨0, 3, 9, false, []⟩⟩,
        ⟨"b", "AC", ⟨0, 7, 4, false, []⟩⟩]).result.time :=
  (AggregateResults_time_memory_max [⟨"a", "AC", ⟨0, 3, 9, false, []⟩⟩,
    ⟨"b", "AC", ⟨0, 7, 4, false, []⟩⟩]).2.2.1 _ (by decide)

/-! ## Claims about outputStripper -/

lemma totalLen_cons (b : List UInt8) (ws : List (List UInt8)) :
    totalLen (b :: ws) = b.length + totalLen ws := by
  simp [totalLen]

lemma write_over (s : outputStripper) (b : List UInt8) (h20 : 20 < s.N)
    (hc : s.N - 20 - (s.data.length : Int) < (b.length : Int)) :
    (s.write b).2.2 =
      ⟨s.N, s.data ++ b.take (s.N - 20 - (s.data.length : Int)).toNat, true⟩ := by
  unfold outputStripper.write
  rw [if_neg (by omega)]
  dsimp only
  rw [if_pos hc, if_pos hc]

lemma write_fit (s : outputStripper) (b : List UInt8) (h20 : 20 < s.N)
    (hc : ¬(s.N - 20 - (s.data.length : Int) < (b.length : Int))) :
    (s.write b).2.2 = ⟨s.N, s.data ++ b, s.overflow⟩ := by
  unfold outputStripper.write
  rw [if_neg (by omega)]
  dsimp only
  rw [if_neg hc, if_neg hc]
  simp

/-- State invariant of a write sequence: the capacity is untouched, at most
`N - 20` bytes are retained, and the `overflow` flag is `false` exactly as
long as every input byte has been retained. -/
lemma runWrites_inv (n : Int) (h20 : 20 < n) (ws : List (List UInt8)) :
    ∀ (s : outputStripper) (tot : Nat), s.N = n → ((s.data.length : Int) ≤ n - 20) →
      (s.overflow = false → s.data.length = tot) →
      (s.overflow = true → s.data.length < tot) →
      ((ws.foldl (fun t b => (t.write b).2.2) s).N = n
      ∧ (((ws.foldl (fun t b => (t.write b).2.2) s).data.length : Int) ≤ n - 20)
      ∧ ((ws.foldl (fun t b => (t.write b).2.2) s).overflow = false →
          (ws.foldl (fun t b => (t.write b).2.2) s).data.length = tot + totalLen ws)
      ∧ ((ws.foldl (fun t b => (t.write b).2.2) s).overflow = true →
          (ws.foldl (fun t b => (t.write b).2.2) s).data.length < tot + totalLen ws)) := by
  induction ws with
  | nil =>
    intro s tot hN hlen hof hov
    refine ⟨hN, hlen, ?_, ?_⟩
    · intro h
      simpa [totalLen] using hof h
    · intro h
      simpa [totalLen] using hov h
  | cons b rest ih =>
    intro s tot hN hlen hof hov
    rw [List.foldl_cons]
    by_cases hc : s.N - 20 - (s.data.length : Int) < (b.length : Int)
    · rw [write_over s b (by omega) hc]
      obtain ⟨i1, i2, i3, i4⟩ :=
        ih ⟨s.N, s.data ++ b.take (s.N - 20 - (s.data.length : Int)).toNat, true⟩
          (tot + b.length) hN
          (by simp [List.length_take]; omega)
          (by intro h; cases h)
          (by
            intro _
            simp only [List.length_append, List.length_take]
            rcases Bool.eq_false_or_eq_true s.overflow with hb | hb
            · have := hov hb
              omega
            · have := hof hb
              omega)
      refine ⟨i1, i2, ?_, ?_⟩
      · intro h
        have := i3 h
        rw [totalLen_cons]
        omega
      · intro h
        have := i4 h
        rw [totalLen_cons]
        omega
    · rw [write_fit s b (by omega) hc]
      obtain ⟨i1, i2, i3, i4⟩ :=
        ih ⟨s.N, s.data ++ b, s.overflow⟩ (tot + b.length) hN
          (by simp; omega)
          (by
            intro h
            have := hof h
            simp
            omega)
          (by
            intro h
            have := hov h
            simp
            omega)
      refine ⟨i1, i2, ?_, ?_⟩
      · intro h
        have := i3 h
        rw [totalLen_cons]
        omega
      · intro h
        have := i4 h
        rw [totalLen_cons]
        omega

/-- C4, amended: for capacity `N > 20` and any finite write sequence, the
snapshot has length at most `N`; the `overflow` flag is latched exactly when
at least one input byte was discarded (fewer bytes retained than written);
and whenever a byte was discarded the snapshot ends with the literal
sentinel `" ... stripped"`.  The converse of the sentinel direction is
false — see the counterexample — because input that itself ends in the
sentinel is indistinguishable from a truncated snapshot. -/
theorem outputStripper_bound_and_overflow (n : Int) (ws : List (List UInt8)) (h : 20 < n) :
    ((runWrites n ws).bytes.length : Int) ≤ n
    ∧ ((runWrites n ws).overflow = true ↔ (runWrites n ws).data.length < totalLen ws)
    ∧ ((runWrites n ws).overflow = true → strippedSentinel <:+ (runWrites n ws).bytes) := by
  have hrw : runWrites n ws = ws.foldl (fun t b => (t.write b).2.2) (outputStripper.init n) :=
    rfl
  obtain ⟨h1, h2, h3, h4⟩ :=
    runWrites_inv n h ws (outputStripper.init n) 0 rfl
      (by simp [outputStripper.init]; omega)
      (by intro _; rfl)
      (by intro hx; cases hx)
  rw [← hrw] at h1 h2 h3 h4
  refine ⟨?_, ⟨?_, ?_⟩, ?_⟩
  · rcases Bool.eq_false_or_eq_true (runWrites n ws).overflow with hb | hb <;>
      simp [outputStripper.bytes, hb, strippedSentinel] <;> omega
  · intro hov
    have := h4 hov
    omega
  · intro hlt
    rcases Bool.eq_false_or_eq_true (runWrites n ws).overflow with hb | hb
    · exact hb
    · have := h3 hb
      omega
  · intro hov
    simp only [outputStripper.bytes, hov, if_true]
    exact List.suffix_append _ _

/-- Witness for the amended C4 on a concrete capacity and write sequence. -/
theorem outputStripper_bound_and_overflow_witness :
    ((runWrites 30 [[1, 2], [3, 4, 5], [6]]).bytes.length : Int) ≤ 30
    ∧ ((runWrites 30 [[1, 2], [3, 4, 5], [6]]).overflow = true ↔
        (runWrites 30 [[1, 2], [3, 4, 5], [6]]).data.length <
          totalLen [[1, 2], [3, 4, 5], [6]]) :=
  ⟨(outputStripper_bound_and_overflow 30 [[1, 2], [3, 4, 5], [6]] (by decide)).1,
   (outputStripper_bound_and_overflow 30 [[1, 2], [3, 4, 5], [6]] (by decide)).2.1⟩

/-- C4, counterexample: writing the 13 sentinel bytes themselves to a
capper of capacity 40 discards nothing (`overflow` stays `false`, all 13
input bytes are retained), yet the snapshot ends with the sentinel suffix:
"ends with the sentinel" does not imply "bytes were discarded". -/
theorem outputStripper_sentinel_iff_counterexample :
    (runWrites 40 [strippedSentinel]).overflow = false
    ∧ (runWrites 40 [strippedSentinel]).data.length = totalLen [strippedSentinel]
    ∧ strippedSentinel <:+ (runWrites 40 [strippedSentinel]).bytes := by
  refine ⟨by decide, by decide, ⟨[], by decide⟩⟩

/-- C10: a write whose length exactly equals the remaining capacity
`N - 20 - len(data)` is retained in full and leaves the `overflow` flag
unset, so the snapshot is exactly the retained input with no sentinel
appended, even though the retention buffer is completely full
(`len(data) = N - 20`). -/
theorem outputStripper_exact_fill (s : outputStripper) (b : List UInt8)
    (hN : 20 < s.N) (hov : s.overflow = false)
    (hfit : (b.length : Int) = s.N - 20 - (s.data.length : Int)) :
    (s.write b).2.2.data = s.data ++ b
    ∧ (s.write b).2.2.overflow = false
    ∧ (s.write b).2.2.bytes = s.data ++ b
    ∧ (((s.write b).2.2.data.length : Int)) = s.N - 20 := by
  have hc : ¬(s.N - 20 - (s.data.length : Int) < (b.length : Int)) := by omega
  rw [write_fit s b hN hc]
  refine ⟨rfl, hov, ?_, ?_⟩
  · simp [outputStripper.bytes, hov]
  · simp
    omega

/-- Witness for C10: capacity 25, two bytes retained, a three-byte write
exactly fills the 5-byte retention buffer without overflow. -/
theorem outputStripper_exact_fill_witness :
    ((⟨25, [9, 9], false⟩ : outputStripper).write [1, 2, 3]).2.2.data = [9, 9] ++ [1, 2, 3]
    ∧ ((⟨25, [9, 9], false⟩ : outputStripper).write [1, 2, 3]).2.2.overflow = false
    ∧ ((⟨25, [9, 9], false⟩ : outputStripper).write [1, 2, 3]).2.2.bytes = [9, 9] ++ [1, 2, 3]
    ∧ ((((⟨25, [9, 9], false⟩ : outputStripper).write [1, 2, 3]).2.2.data.length : Int))
        = 25 - 20 :=
  outputStripper_exact_fill ⟨25, [9, 9], false⟩ [1, 2, 3] (by decide) rfl (by decide)

/-! ## Claims about the submission lock -/

lemma tryLock_some_fail (l : SubmissionLock) (now : Nat) (n : String)
    (h1 : l.name ≠ n) (h2 : now < l.ping + LOCK_TIME) :
    TryLockSubmission (some l) now n = (false, some l) := by
  simp only [TryLockSubmission, Option.getD_some]
  rw [if_pos ⟨h1, h2⟩]

lemma tryLock_some_self (l : SubmissionLock) (now : Nat) :
    TryLockSubmission (some l) now l.name = (true, some ⟨l.name, now⟩) := by
  simp only [TryLockSubmission, Option.getD_some]
  rw [if_neg (fun hcon => hcon.1 rfl)]

lemma tryLock_success_state (st : Option SubmissionLock) (t : Nat) (n : String)
    (st' : Option SubmissionLock) (h : TryLockSubmission st t n = (true, st')) :
    st' = some ⟨n, t⟩ := by
  cases st with
  | none =>
    simp only [TryLockSubmission, Option.getD_none] at h
    rw [if_neg (fun hcon => hcon.1 rfl)] at h
    injection h with h1 h2
    exact h2.symm
  | some l =>
    simp only [TryLockSubmission, Option.getD_some] at h
    by_cases hc : l.name ≠ n ∧ t < l.ping + LOCK_TIME
    · rw [if_pos hc] at h
      injection h with h1 h2
      cases h1
    · rw [if_neg hc] at h
      injection h with h1 h2
      exact h2.symm

lemma runLocks_cons (st : Option SubmissionLock) (c : Nat × String)
    (rest : List (Nat × String)) :
    runLocks st (c :: rest) =
      ((TryLockSubmission st c.1 c.2).1 ::
        (runLocks (TryLockSubmission st c.1 c.2).2 rest).1,
       (runLocks (TryLockSubmission st c.1 c.2).2 rest).2) := rfl

/-- While `A` holds the lock with ping `p` and every call happens before
`p + LOCK_TIME`, a sequence of calls containing no successful `A`-call
consists entirely of failed calls and leaves the row unchanged. -/
lemma runLocks_held_stable (A : String) (p tB : Nat) (htB : tB < p + LOCK_TIME) :
    ∀ (mid : List (Nat × String)),
      (∀ c ∈ mid, c.1 ≤ tB) →
      (∀ pr ∈ ((runLocks (some ⟨A, p⟩) mid).1.zip mid), pr.1 = true → pr.2.2 ≠ A) →
      runLocks (some ⟨A, p⟩) mid = (List.replicate mid.length false, some ⟨A, p⟩) := by
  intro mid
  induction mid with
  | nil => intro _ _; rfl
  | cons c rest ih =>
    obtain ⟨t, nm⟩ := c
    intro hle hnoA
    by_cases hA : nm = A
    · subst hA
      have hstep := tryLock_some_self (⟨nm, p⟩ : SubmissionLock) t
      exfalso
      have hmem : ((true, (t, nm)) : Bool × (Nat × String)) ∈
          ((runLocks (some ⟨nm, p⟩) ((t, nm) :: rest)).1.zip ((t, nm) :: rest)) := by
        rw [runLocks_cons]
        simp only [hstep]
        exact List.mem_cons_self _ _
      exact hnoA _ hmem rfl rfl
    · have hstep := tryLock_some_fail (⟨A, p⟩ : SubmissionLock) t nm
        (fun h => hA h.symm)
        (by
          have := hle (t, nm) (List.mem_cons_self _ _)
          show t < p + LOCK_TIME
          omega)
      have htail := ih (fun c hc => hle c (List.mem_cons_of_mem _ hc))
        (by
          intro pr hpr htrue
          apply hnoA pr _ htrue
          rw [runLocks_cons]
          simp only [hstep]
          exact List.mem_cons_of_mem _ hpr)
      rw [runLocks_cons]
      simp only [hstep, htail, List.length_cons, List.replicate_succ]

/-- C3: after `try_lock(id, A)` succeeds at time `tA` (state `st1`), run
any further calls `mid` among which no `A`-call succeeds (so `tA` is the
most recent successful `A`-lock), all at nondecreasing times up to `tB`.
If `tB < tA + LOCK_TIME`, the next call `try_lock(id, B)` with `B ≠ A` at
time `tB` fails: a live lock cannot be taken over by another holder before
`LOCK_TIME` has elapsed. -/
theorem TryLockSubmission_exclusion
    (st : Option SubmissionLock) (tA : Nat) (A : String) (st1 : Option SubmissionLock)
    (mid : List (Nat × String)) (tB : Nat) (B : String)
    (hA : TryLockSubmission st tA A = (true, st1))
    (hmono : ∀ c ∈ mid, c.1 ≤ tB)
    (hnoA : ∀ pr ∈ ((runLocks st1 mid).1.zip mid), pr.1 = true → pr.2.2 ≠ A)
    (hB : B ≠ A)
    (htB : tB < tA + LOCK_TIME) :
    (TryLockSubmission (runLocks st1 mid).2 tB B).1 = false := by
  have h1 : st1 = some ⟨A, tA⟩ := tryLock_success_state _ _ _ _ hA
  subst h1
  rw [runLocks_held_stable A tA tB htB mid hmono hnoA]
  show (TryLockSubmission (some ⟨A, tA⟩) tB B).1 = false
  rw [tryLock_some_fail ⟨A, tA⟩ tB B (Ne.symm hB) htB]

/-- Witness for C3: `alpha` locks at t=100; `beta` fails at t=120 and again
at t=130 < 100 + 60. -/
theorem TryLockSubmission_exclusion_witness :
    (TryLockSubmission (runLocks (some ⟨"alpha", 100⟩) [(120, "beta")]).2 130 "beta").1
      = false :=
  TryLockSubmission_exclusion none 100 "alpha" (some ⟨"alpha", 100⟩) [(120, "beta")]
    130 "beta" (by decide) (by decide) (by decide) (by decide) (by decide)
